import Mathlib

/-!
# Verification of the blockchain-voting core

Shallow embedding of the vote-ledger core of the FastAPI blockchain voting
system, together with the admin-viewer logic found in the repository's
JavaScript frontend (`BlockchainViewer.jsx`, `ResultsViewer.jsx`,
`DashboardOverview.jsx`, `backend/static/js/admin.js`).

The Python backend implementing HashCodec, Ledger, VoteGate and
ChainInspector is not part of the checked-in sources; those components are
modelled from the specification (each such definition is marked
`Modelled from the spec:`). The frontend components are embedded directly
from the JavaScript sources.
-/

/-- Modelled from the spec: a block payload is a tagged variant, either
`Genesis{message}` or `VoteRecord{voter_id, candidate_id, candidate_name, cast_at}`
(spec §3). -/
inductive Payload where
  | genesis (message : String)
  | voteRecord (voter_id candidate_id candidate_name : String) (cast_at : Nat)
deriving DecidableEq, Repr

/-- Modelled from the spec: the digest domain of HashCodec (§4.1). The spec
assumes the digest is deterministic and injective over distinct logical inputs
(collisions negligible), and that the genesis `previous_hash` is a fixed
sentinel distinct from real digests; we model the collision-free hash as a
free constructor over the hashed fields, so distinct logical inputs give
distinct hashes by constructor injectivity. -/
inductive Hash where
  | sentinel
  | digest (index timestamp : Nat) (payload : Payload) (previous_hash : Hash)
deriving DecidableEq, Repr

namespace HashCodec

/-- Modelled from the spec: `HashCodec.digest(index, timestamp, payload,
previous_hash) -> Hash`, a pure deterministic digest over the canonical
encoding of the four header fields (spec §4.1). -/
def digest (index timestamp : Nat) (payload : Payload) (previous_hash : Hash) : Hash :=
  Hash.digest index timestamp payload previous_hash

theorem digest_injective
    {i₁ t₁ p₁ h₁ i₂ t₂ p₂ h₂}
    (h : digest i₁ t₁ p₁ h₁ = digest i₂ t₂ p₂ h₂) :
    i₁ = i₂ ∧ t₁ = t₂ ∧ p₁ = p₂ ∧ h₁ = h₂ := by
  cases h; exact ⟨rfl, rfl, rfl, rfl⟩

theorem digest_ne_sentinel (i t p h) : digest i t p h ≠ Hash.sentinel := by
  intro hc; cases hc

end HashCodec

/-- Modelled from the spec: a Block carries `index`, `timestamp`, `payload`,
`previous_hash` and `hash` (spec §3). -/
structure Block where
  index : Nat
  timestamp : Nat
  payload : Payload
  previous_hash : Hash
  hash : Hash
deriving DecidableEq, Repr

/-- Build a block whose `hash` field is the digest of its header fields. -/
def mkBlock (index timestamp : Nat) (payload : Payload) (previous_hash : Hash) : Block :=
  { index := index, timestamp := timestamp, payload := payload,
    previous_hash := previous_hash,
    hash := HashCodec.digest index timestamp payload previous_hash }

/-- Modelled from the spec: the genesis block — index 0, fixed message,
sentinel `previous_hash`, hash computed via HashCodec (spec §4.2). -/
def genesisBlock : Block :=
  mkBlock 0 0 (Payload.genesis "Genesis Block") Hash.sentinel

/-- Modelled from the spec: a validity report is either "valid" or the first
index at which a mismatch was found (spec §4.2). -/
inductive ValidityReport where
  | valid
  | tamperedAt (index : Nat)
deriving DecidableEq, Repr

namespace Ledger

/-- Modelled from the spec: `new()` creates a ledger containing only the
genesis block (spec §4.2). The chain is the ordered sequence of blocks. -/
def new : List Block := [genesisBlock]

/-- The block that `append` constructs: `index = last.index + 1`,
`timestamp = now`, `previous_hash = last.hash`, `hash = HashCodec.digest(...)`
(spec §4.2). Time is passed explicitly as `now`. -/
def newBlock (chain : List Block) (now : Nat) (payload : Payload) : Block :=
  let last := chain.getLastD genesisBlock
  mkBlock (last.index + 1) now payload last.hash

/-- Modelled from the spec: `append(payload) -> Block` pushes the new block
and returns it; the only mutating operation, total on structurally valid
payloads (spec §4.2). -/
def append (chain : List Block) (now : Nat) (payload : Payload) : List Block × Block :=
  (chain ++ [newBlock chain now payload], newBlock chain now payload)

/-- One step of `validate`: `prev` is the previously checked block, `i` the
position of the head of `rest` in the chain. Each block's hash is recomputed
and the `previous_hash` linkage is checked; the first mismatching index is
returned (spec §4.2). -/
def validateFrom (prev : Block) (i : Nat) : List Block → ValidityReport
  | [] => ValidityReport.valid
  | b :: rest =>
    if b.hash = HashCodec.digest b.index b.timestamp b.payload b.previous_hash
        ∧ b.previous_hash = prev.hash then
      validateFrom b (i + 1) rest
    else
      ValidityReport.tamperedAt i

/-- Modelled from the spec: `validate()` walks the chain from index 1 to the
end, recomputing each block's hash and verifying `previous_hash` linkage;
returns the first index at which a mismatch is found, or "valid" (spec §4.2).
It never throws: it is a total function reporting tampering as data. -/
def validate (chain : List Block) : ValidityReport :=
  match chain with
  | [] => ValidityReport.valid
  | g :: rest => validateFrom g 1 rest

/-- Modelled from the spec: `snapshot()` returns a point-in-time copy of the
full chain (spec §4.2). -/
def snapshot (chain : List Block) : List Block := chain

end Ledger

namespace ChainInspector

/-- Modelled from the spec: `isValid()` built on `Ledger.validate` (spec §4.4). -/
def isValid (chain : List Block) : Bool :=
  Ledger.validate chain = ValidityReport.valid

/-- Modelled from the spec: `firstTamperedIndex()` built on `Ledger.validate`
(spec §4.4). -/
def firstTamperedIndex (chain : List Block) : Option Nat :=
  match Ledger.validate chain with
  | ValidityReport.valid => none
  | ValidityReport.tamperedAt i => some i

/-- Bump the count of `k` in an association-list tally. -/
def bump : List (String × Nat) → String → List (String × Nat)
  | [], k => [(k, 1)]
  | (k', n) :: rest, k =>
    if k' = k then (k', n + 1) :: rest else (k', n) :: bump rest k

/-- Modelled from the spec: `tally()` maps candidate_id to vote count, one
O(n) pass over `VoteRecord` payloads (spec §4.4). -/
def tally (chain : List Block) : List (String × Nat) :=
  chain.foldl
    (fun m b =>
      match b.payload with
      | Payload.genesis _ => m
      | Payload.voteRecord _ cid _ _ => bump m cid)
    []

end ChainInspector

/-- Number of blocks in the chain whose payload is a `VoteRecord` for
`voter_id` (spec §3 at-most-one-vote invariant). -/
def countVotes (chain : List Block) (voter_id : String) : Nat :=
  (chain.filter fun b =>
    match b.payload with
    | Payload.voteRecord v _ _ _ => v = voter_id
    | Payload.genesis _ => false).length

/-- Modelled from the spec: the identity-verification collaborator's output,
`{matched: boolean, confidence: number}` (spec §6). -/
structure IdentityProof where
  matched : Bool
  confidence : Nat
deriving DecidableEq, Repr

/-- Modelled from the spec: VoteGate treats `matched == true` at or above the
configured confidence threshold as sufficient (spec §6). -/
def identityVerified (threshold : Nat) (proof : IdentityProof) : Bool :=
  proof.matched && threshold ≤ proof.confidence

/-- Modelled from the spec: `VoterStatus` — `has_voted` and `registered`,
owned by the voter store (spec §3). -/
structure VoterStatus where
  has_voted : Bool
  registered : Bool
deriving DecidableEq, Repr

/-- Modelled from the spec: a candidate record as returned by the
candidate/election store: `election_id`, `is_active`, and the election's
open/close times, plus the candidate's display name (spec §6, §4.3 step 4). -/
structure Candidate where
  name : String
  election_id : String
  is_active : Bool
  start_time : Nat
  end_time : Nat
deriving DecidableEq, Repr

/-- Modelled from the spec: the state acted on by VoteGate — the ledger chain
plus the externally stored voter and candidate records (spec §2, §6); the
stores are modelled as association lists keyed by id. -/
structure SystemState where
  chain : List Block
  voters : List (String × VoterStatus)
  candidates : List (String × Candidate)
deriving DecidableEq, Repr

/-- Modelled from the spec: the typed outcomes of `castVote` (spec §4.3, §7). -/
inductive Rejection where
  | identityNotVerified
  | unknownVoter
  | alreadyVoted
  | invalidOrClosedCandidate
deriving DecidableEq, Repr

/-- Modelled from the spec: `VoteOutcome` — `Accepted(block_index, block_hash)`
or a typed rejection (spec §4.3). -/
inductive VoteOutcome where
  | accepted (block_index : Nat) (block_hash : Hash)
  | rejected (reason : Rejection)
deriving DecidableEq, Repr

/-- Modelled from the spec: step 4's candidate validity test — active
candidate in a currently-open election, current time within
`[start_time, end_time)` and `is_active == true` (spec §4.3). -/
def candidateOpen (c : Candidate) (now : Nat) : Bool :=
  c.is_active && c.start_time ≤ now && now < c.end_time

/-- Modelled from the spec: `setVoted(voter_id)` in the voter store —
`VoterStatus.has_voted` transitions to true for that voter (spec §6, §3). -/
def setVoted (m : List (String × VoterStatus)) (voter_id : String) :
    List (String × VoterStatus) :=
  m.map fun kv =>
    if kv.1 = voter_id then (kv.1, { kv.2 with has_voted := true }) else kv

namespace VoteGate

/-- Modelled from the spec: `castVote(voter_id, candidate_id, identity_proof)`
performs, as one atomic unit, the checks of §4.3 in order — identity proof,
unknown voter, `has_voted`, candidate/election validity — and only when all
pass appends the `VoteRecord` and sets `has_voted = true`. A total function:
every outcome is a typed result, never a fault. Time is passed as `now` and
the confidence threshold as `threshold`. -/
def castVote (threshold : Nat) (st : SystemState) (now : Nat)
    (voter_id candidate_id : String) (proof : IdentityProof) :
    SystemState × VoteOutcome :=
  if ¬ identityVerified threshold proof then
    (st, VoteOutcome.rejected Rejection.identityNotVerified)
  else
    match st.voters.lookup voter_id with
    | none => (st, VoteOutcome.rejected Rejection.unknownVoter)
    | some vs =>
      if vs.has_voted then
        (st, VoteOutcome.rejected Rejection.alreadyVoted)
      else
        match st.candidates.lookup candidate_id with
        | none => (st, VoteOutcome.rejected Rejection.invalidOrClosedCandidate)
        | some c =>
          if ¬ candidateOpen c now then
            (st, VoteOutcome.rejected Rejection.invalidOrClosedCandidate)
          else
            let r := Ledger.append st.chain now
              (Payload.voteRecord voter_id candidate_id c.name now)
            ({ chain := r.1, voters := setVoted st.voters voter_id,
               candidates := st.candidates },
             VoteOutcome.accepted r.2.index r.2.hash)

/-- Run `n` identical `castVote` requests back to back, as the spec's critical
section serializes N concurrent calls (spec §5); returns the final state and
the outcome of each call in order. -/
def castVotes (threshold : Nat) (st : SystemState) (now : Nat)
    (voter_id candidate_id : String) (proof : IdentityProof) :
    Nat → SystemState × List VoteOutcome
  | 0 => (st, [])
  | n + 1 =>
    let r := castVote threshold st now voter_id candidate_id proof
    let rest := castVotes threshold r.1 now voter_id candidate_id proof n
    (rest.1, r.2 :: rest.2)

end VoteGate

/-- Modelled from the spec: the states reachable through the ledger's public
operations — a fresh ledger followed by any sequence of appends (spec §4.2). -/
inductive ChainReachable : List Block → Prop
  | init : ChainReachable Ledger.new
  | append (chain : List Block) (now : Nat) (p : Payload) :
      ChainReachable chain → ChainReachable (Ledger.append chain now p).1

/-- Modelled from the spec: system states reachable through the vote-casting
gate — any initial voter/candidate stores over a fresh ledger, followed by any
sequence of `castVote` calls (spec §2, §4.3). -/
inductive Reachable : SystemState → Prop
  | init (voters : List (String × VoterStatus))
      (candidates : List (String × Candidate)) :
      Reachable { chain := Ledger.new, voters := voters, candidates := candidates }
  | vote (st : SystemState) (threshold now : Nat) (voter_id candidate_id : String)
      (proof : IdentityProof) : Reachable st →
      Reachable (VoteGate.castVote threshold st now voter_id candidate_id proof).1

/-- A serialized field value in an exported block record. -/
inductive FieldVal where
  | nat (n : Nat)
  | hashVal (h : Hash)
  | payloadVal (p : Payload)
deriving DecidableEq, Repr

/-- Modelled from the spec: the serialized block record delivered on the
ledger export surface to the admin viewer (spec §6). The serializer itself is
not among the checked-in sources; the field names are the ones the in-repo
admin viewers read from each record (`Frontend/src/components/admin/BlockchainViewer.jsx`
lines 49-67 and `backend/static/js/admin.js` lines 401-410:
`block.index`, `block.timestamp`, `block.data`, `block.hash`,
`block.previous_hash`) — the payload travels under the key `data`. -/
def exportRecord (b : Block) : List (String × FieldVal) :=
  [("index", FieldVal.nat b.index),
   ("timestamp", FieldVal.nat b.timestamp),
   ("data", FieldVal.payloadVal b.payload),
   ("previous_hash", FieldVal.hashVal b.previous_hash),
   ("hash", FieldVal.hashVal b.hash)]

/-- Modelled from the spec: `exportChain()` serializes the chain as an ordered
list of block records, in chain order (spec §4.4, §6). -/
def exportChain (chain : List Block) : List (List (String × FieldVal)) :=
  (Ledger.snapshot chain).map exportRecord

/-- The field names the spec's §6 sentence claims for each exported block
record, in the spec's order (`index, timestamp, payload, previous_hash, hash`);
stated for comparison with what the code delivers. -/
def specClaimedFields : List String :=
  ["index", "timestamp", "payload", "previous_hash", "hash"]

/-- Embedded from `BlockchainViewer.jsx` line 46
(`[...blockchain.chain].reverse().map(...)`) and `admin.js` line 398
(`data.chain.reverse().map(...)`): the admin blockchain view renders the
fetched chain reversed, newest block first. -/
def displayedBlocks (chain : List Block) : List Block :=
  chain.reverse

/-- Round a rational to one decimal place, the idealized arithmetic of
JavaScript's `toFixed(1)`. -/
def roundTo1 (q : ℚ) : ℚ :=
  (round (q * 10) : ℤ) / 10

/-- Embedded from `ResultsViewer.jsx` lines 50-52, `DashboardOverview.jsx`
lines 200-202 and `admin.js` line 437, which all compute
`total_votes > 0 ? ((votes / total_votes) * 100).toFixed(1) : 0`;
the JavaScript number arithmetic is modelled over ℚ. -/
def displayedPercentage (votes total_votes : Nat) : ℚ :=
  if 0 < total_votes then
    roundTo1 (((votes : ℚ) / (total_votes : ℚ)) * 100)
  else 0

/-! ## Chain invariants -/

/-- Linkage between consecutive blocks: the later block points at the hash of
the earlier one and increments its index (spec §3, §8 monotonic linkage). -/
def BlockLink (a b : Block) : Prop :=
  b.previous_hash = a.hash ∧ b.index = a.index + 1

/-- A block's stored hash is the digest of its own header fields (spec §3). -/
def WellHashed (b : Block) : Prop :=
  b.hash = HashCodec.digest b.index b.timestamp b.payload b.previous_hash

/-- The structural chain invariant: nonempty, consecutive blocks linked, and
every block well hashed. -/
def ChainInv (chain : List Block) : Prop :=
  chain ≠ [] ∧ List.Chain' BlockLink chain ∧ ∀ b ∈ chain, WellHashed b

theorem wellHashed_mkBlock (i t : Nat) (p : Payload) (h : Hash) :
    WellHashed (mkBlock i t p h) := rfl

theorem chainInv_new : ChainInv Ledger.new := by
  refine ⟨by simp [Ledger.new], List.chain'_singleton _, ?_⟩
  intro b hb
  simp [Ledger.new] at hb
  subst hb
  exact wellHashed_mkBlock 0 0 _ _

theorem getLastD_of_ne_nil {l : List Block} (h : l ≠ []) (d : Block) :
    l.getLastD d = l.getLast h := by
  rw [List.getLastD_eq_getLast?, List.getLast?_eq_getLast l h]
  rfl

theorem chainInv_append (chain : List Block) (now : Nat) (p : Payload)
    (inv : ChainInv chain) : ChainInv (Ledger.append chain now p).1 := by
  obtain ⟨hne, hchain, hwell⟩ := inv
  refine ⟨by simp [Ledger.append], ?_, ?_⟩
  · rw [Ledger.append, List.chain'_append]
    refine ⟨hchain, List.chain'_singleton _, ?_⟩
    intro x hx y hy
    rw [List.getLast?_eq_getLast chain hne, Option.mem_def, Option.some.injEq] at hx
    simp only [List.head?, Option.mem_def, Option.some.injEq] at hy
    subst hx; subst hy
    constructor
    · show (Ledger.newBlock chain now p).previous_hash = _
      rw [Ledger.newBlock]
      show (chain.getLastD genesisBlock).hash = _
      rw [getLastD_of_ne_nil hne]
    · show (Ledger.newBlock chain now p).index = _
      rw [Ledger.newBlock]
      show (chain.getLastD genesisBlock).index + 1 = _
      rw [getLastD_of_ne_nil hne]
  · intro b hb
    rw [Ledger.append] at hb
    rcases List.mem_append.mp hb with h | h
    · exact hwell b h
    · simp only [List.mem_singleton] at h
      subst h
      exact wellHashed_mkBlock _ _ _ _

theorem chainReachable_inv {chain : List Block} (h : ChainReachable chain) :
    ChainInv chain := by
  induction h with
  | init => exact chainInv_new
  | append c now p _ ih => exact chainInv_append c now p ih

/-- C1: in every chain state reachable through the ledger's public operations,
each block at position `i > 0` points at the hash of its predecessor, has the
successor index, and its stored hash is the digest of its own header fields. -/
theorem chain_linkage_invariant (chain : List Block) (hr : ChainReachable chain)
    (i : Nat) (hi : 0 < i) (h : i < chain.length) :
    (chain.get ⟨i, h⟩).previous_hash = (chain.get ⟨i - 1, by omega⟩).hash ∧
    (chain.get ⟨i, h⟩).index = (chain.get ⟨i - 1, by omega⟩).index + 1 ∧
    (chain.get ⟨i, h⟩).hash = HashCodec.digest (chain.get ⟨i, h⟩).index
      (chain.get ⟨i, h⟩).timestamp (chain.get ⟨i, h⟩).payload
      (chain.get ⟨i, h⟩).previous_hash := by
  obtain ⟨-, hchain, hwell⟩ := chainReachable_inv hr
  obtain ⟨j, rfl⟩ : ∃ j, i = j + 1 := ⟨i - 1, by omega⟩
  simp only [Nat.add_sub_cancel]
  have hlink := (List.chain'_iff_get.mp hchain) j (by omega)
  exact ⟨hlink.1, hlink.2, hwell _ (List.get_mem chain (j + 1) h)⟩

/-- Witness for C1 on a concrete two-block chain. -/
theorem chain_linkage_invariant_witness :
    (((Ledger.append Ledger.new 5 (Payload.voteRecord "V1" "C001" "Alice" 5)).1.get
        ⟨1, by decide⟩).previous_hash =
      ((Ledger.append Ledger.new 5 (Payload.voteRecord "V1" "C001" "Alice" 5)).1.get
        ⟨0, by decide⟩).hash) ∧
    (((Ledger.append Ledger.new 5 (Payload.voteRecord "V1" "C001" "Alice" 5)).1.get
        ⟨1, by decide⟩).index =
      ((Ledger.append Ledger.new 5 (Payload.voteRecord "V1" "C001" "Alice" 5)).1.get
        ⟨0, by decide⟩).index + 1) := by
  have h := chain_linkage_invariant
    (Ledger.append Ledger.new 5 (Payload.voteRecord "V1" "C001" "Alice" 5)).1
    (ChainReachable.append Ledger.new 5 _ ChainReachable.init) 1 (by decide) (by decide)
  exact ⟨h.1, h.2.1⟩

/-! ## Validation -/

theorem validateFrom_valid (xs : List Block) :
    ∀ (g : Block) (k : Nat), List.Chain' BlockLink (g :: xs) →
      (∀ b ∈ xs, WellHashed b) → Ledger.validateFrom g k xs = ValidityReport.valid := by
  induction xs with
  | nil => intro g k _ _; rfl
  | cons x xs ih =>
    intro g k hchain hwell
    have hlink : BlockLink g x := (List.chain'_cons.mp hchain).1
    rw [Ledger.validateFrom, if_pos ⟨hwell x (by simp), hlink.1⟩]
    exact ih x (k + 1) (List.chain'_cons.mp hchain).2 fun b hb => hwell b (by simp [hb])

theorem validate_of_chainInv {chain : List Block} (inv : ChainInv chain) :
    Ledger.validate chain = ValidityReport.valid := by
  obtain ⟨hne, hchain, hwell⟩ := inv
  match chain, hne with
  | g :: rest, _ =>
    rw [Ledger.validate]
    exact validateFrom_valid rest g 1 hchain fun b hb => hwell b (by simp [hb])

theorem validateFrom_append (xs : List Block) :
    ∀ (g : Block) (k : Nat) (ys : List Block), List.Chain' BlockLink (g :: xs) →
      (∀ b ∈ xs, WellHashed b) →
      Ledger.validateFrom g k (xs ++ ys) =
        Ledger.validateFrom (xs.getLastD g) (k + xs.length) ys := by
  induction xs with
  | nil => intro g k ys _ _; rfl
  | cons x xs ih =>
    intro g k ys hchain hwell
    have hlink : BlockLink g x := (List.chain'_cons.mp hchain).1
    rw [List.cons_append, Ledger.validateFrom, if_pos ⟨hwell x (by simp), hlink.1⟩,
      ih x (k + 1) ys (List.chain'_cons.mp hchain).2 fun b hb => hwell b (by simp [hb]),
      List.getLastD_cons]
    congr 1
    simp [List.length_cons]
    omega

theorem validate_detects_payload_tamper (chain : List Block)
    (hr : ChainReachable chain) (i : Nat) (h : i < chain.length) (hi : 1 ≤ i)
    (p' : Payload) (hp : p' ≠ (chain.get ⟨i, h⟩).payload) :
    Ledger.validate (chain.set i { chain.get ⟨i, h⟩ with payload := p' }) =
      ValidityReport.tamperedAt i := by
  obtain ⟨hne, hchain, hwell⟩ := chainReachable_inv hr
  obtain ⟨g, rest, rfl⟩ := List.exists_cons_of_ne_nil hne
  obtain ⟨j, rfl⟩ : ∃ j, i = j + 1 := ⟨i - 1, by omega⟩
  have hj : j < rest.length := by simpa using h
  rw [List.set_cons_succ, Ledger.validate,
    List.set_eq_take_append_cons_drop, if_pos hj,
    validateFrom_append (rest.take j) g 1 _ ?hc ?hw]
  case hc =>
    rw [show g :: rest.take j = (g :: rest).take (j + 1) from rfl]
    exact hchain.take (j + 1)
  case hw =>
    intro b hb
    exact hwell b (List.mem_cons_of_mem g (List.mem_of_mem_take hb))
  have hlen : (rest.take j).length = j := by
    rw [List.length_take]; omega
  rw [Ledger.validateFrom, if_neg ?hcond, hlen]
  case hcond =>
    rintro ⟨hhash, -⟩
    have horig := hwell ((g :: rest).get ⟨j + 1, h⟩)
      (List.get_mem (g :: rest) (j + 1) h)
    rw [WellHashed] at horig
    exact hp ((HashCodec.digest_injective (horig.symm.trans hhash)).2.2.1).symm
  congr 1
  omega

/-- A sample reachable chain: genesis plus one appended vote. -/
def sampleChain : List Block :=
  (Ledger.append Ledger.new 5 (Payload.voteRecord "V1" "C001" "Alice" 5)).1

theorem sampleChain_reachable : ChainReachable sampleChain :=
  ChainReachable.append Ledger.new 5 _ ChainReachable.init

/-- C3 (amended): every chain produced solely by appends from a fresh ledger
validates as valid; mutating the payload of any non-genesis block makes
`validate` report exactly that block's index. `validate` is a total function
(it never throws). -/
theorem validate_chain_integrity :
    (∀ chain, ChainReachable chain → Ledger.validate chain = ValidityReport.valid) ∧
    (∀ chain, ChainReachable chain → ∀ (i : Nat) (h : i < chain.length), 1 ≤ i →
      ∀ p', p' ≠ (chain.get ⟨i, h⟩).payload →
        Ledger.validate (chain.set i { chain.get ⟨i, h⟩ with payload := p' }) =
          ValidityReport.tamperedAt i) :=
  ⟨fun _ hr => validate_of_chainInv (chainReachable_inv hr),
   fun chain hr i h hi p' hp => validate_detects_payload_tamper chain hr i h hi p' hp⟩

/-- Witness for C3 on concrete chains: an untampered two-block chain is valid,
and mutating block 1's payload is reported at index 1. -/
theorem validate_chain_integrity_witness :
    Ledger.validate sampleChain = ValidityReport.valid ∧
    Ledger.validate (sampleChain.set 1
        { sampleChain.get ⟨1, by decide⟩ with payload := Payload.genesis "x" }) =
      ValidityReport.tamperedAt 1 :=
  ⟨validate_chain_integrity.1 sampleChain sampleChain_reachable,
   validate_chain_integrity.2 sampleChain sampleChain_reachable 1 (by decide)
     (by decide) (Payload.genesis "x") (by decide)⟩

/-- C3 counterexample: the claim fails for the genesis block. Mutating the
genesis payload produces a chain that differs from the appended-only chain at
position 0, yet `validate` — which walks from index 1 and never recomputes the
genesis hash — still reports valid instead of a tampered index. -/
theorem validate_misses_genesis_tamper :
    (sampleChain.set 0 { genesisBlock with payload := Payload.genesis "tampered" }).get
        ⟨0, by decide⟩ ≠ sampleChain.get ⟨0, by decide⟩ ∧
    Ledger.validate
        (sampleChain.set 0 { genesisBlock with payload := Payload.genesis "tampered" }) =
      ValidityReport.valid := by
  decide

/-! ## VoteGate branch lemmas -/

theorem castVote_not_verified (threshold : Nat) (st : SystemState) (now : Nat)
    (v c : String) (p : IdentityProof) (h : identityVerified threshold p = false) :
    VoteGate.castVote threshold st now v c p =
      (st, VoteOutcome.rejected Rejection.identityNotVerified) := by
  simp [VoteGate.castVote, h]

theorem castVote_unknown_voter (threshold : Nat) (st : SystemState) (now : Nat)
    (v c : String) (p : IdentityProof) (hv : identityVerified threshold p = true)
    (hl : st.voters.lookup v = none) :
    VoteGate.castVote threshold st now v c p =
      (st, VoteOutcome.rejected Rejection.unknownVoter) := by
  simp [VoteGate.castVote, hv, hl]

theorem castVote_already_voted (threshold : Nat) (st : SystemState) (now : Nat)
    (v c : String) (p : IdentityProof) (vs : VoterStatus)
    (hv : identityVerified threshold p = true)
    (hl : st.voters.lookup v = some vs) (hvoted : vs.has_voted = true) :
    VoteGate.castVote threshold st now v c p =
      (st, VoteOutcome.rejected Rejection.alreadyVoted) := by
  simp [VoteGate.castVote, hv, hl, hvoted]

theorem castVote_unknown_candidate (threshold : Nat) (st : SystemState) (now : Nat)
    (v c : String) (p : IdentityProof) (vs : VoterStatus)
    (hv : identityVerified threshold p = true)
    (hl : st.voters.lookup v = some vs) (hvoted : vs.has_voted = false)
    (hc : st.candidates.lookup c = none) :
    VoteGate.castVote threshold st now v c p =
      (st, VoteOutcome.rejected Rejection.invalidOrClosedCandidate) := by
  simp [VoteGate.castVote, hv, hl, hvoted, hc]

theorem castVote_closed_candidate (threshold : Nat) (st : SystemState) (now : Nat)
    (v c : String) (p : IdentityProof) (vs : VoterStatus) (cand : Candidate)
    (hv : identityVerified threshold p = true)
    (hl : st.voters.lookup v = some vs) (hvoted : vs.has_voted = false)
    (hc : st.candidates.lookup c = some cand) (hopen : candidateOpen cand now = false) :
    VoteGate.castVote threshold st now v c p =
      (st, VoteOutcome.rejected Rejection.invalidOrClosedCandidate) := by
  simp [VoteGate.castVote, hv, hl, hvoted, hc, hopen]

theorem castVote_accepted (threshold : Nat) (st : SystemState) (now : Nat)
    (v c : String) (p : IdentityProof) (vs : VoterStatus) (cand : Candidate)
    (hv : identityVerified threshold p = true)
    (hl : st.voters.lookup v = some vs) (hvoted : vs.has_voted = false)
    (hc : st.candidates.lookup c = some cand) (hopen : candidateOpen cand now = true) :
    VoteGate.castVote threshold st now v c p =
      ({ chain := st.chain ++
           [Ledger.newBlock st.chain now (Payload.voteRecord v c cand.name now)],
         voters := setVoted st.voters v, candidates := st.candidates },
       VoteOutcome.accepted
         (Ledger.newBlock st.chain now (Payload.voteRecord v c cand.name now)).index
         (Ledger.newBlock st.chain now (Payload.voteRecord v c cand.name now)).hash) := by
  simp [VoteGate.castVote, hv, hl, hvoted, hc, hopen, Ledger.append]

theorem castVote_rejected_state_eq (threshold : Nat) (st : SystemState) (now : Nat)
    (v c : String) (p : IdentityProof) (r : Rejection)
    (h : (VoteGate.castVote threshold st now v c p).2 = VoteOutcome.rejected r) :
    (VoteGate.castVote threshold st now v c p).1 = st := by
  rcases hv : identityVerified threshold p with _ | _
  · rw [castVote_not_verified threshold st now v c p hv]
  · rcases hl : st.voters.lookup v with _ | vs
    · rw [castVote_unknown_voter threshold st now v c p hv hl]
    · rcases hvoted : vs.has_voted with _ | _
      · rcases hc : st.candidates.lookup c with _ | cand
        · rw [castVote_unknown_candidate threshold st now v c p vs hv hl hvoted hc]
        · rcases hopen : candidateOpen cand now with _ | _
          · rw [castVote_closed_candidate threshold st now v c p vs cand hv hl hvoted hc hopen]
          · rw [castVote_accepted threshold st now v c p vs cand hv hl hvoted hc hopen] at h
            simp at h
      · rw [castVote_already_voted threshold st now v c p vs hv hl hvoted]

/-- C4: every rejected `castVote` call leaves the system state — in particular
the chain length and every `VoterStatus` record — exactly as it was. -/
theorem rejection_before_mutation (threshold : Nat) (st : SystemState) (now : Nat)
    (v c : String) (p : IdentityProof) (r : Rejection)
    (h : (VoteGate.castVote threshold st now v c p).2 = VoteOutcome.rejected r) :
    (VoteGate.castVote threshold st now v c p).1 = st ∧
    (VoteGate.castVote threshold st now v c p).1.chain.length = st.chain.length ∧
    (VoteGate.castVote threshold st now v c p).1.voters = st.voters := by
  have he := castVote_rejected_state_eq threshold st now v c p r h
  exact ⟨he, by rw [he], by rw [he]⟩

/-- Witness for C4: a concrete rejected call (unverified identity) leaves the
state unchanged. -/
theorem rejection_before_mutation_witness :
    (VoteGate.castVote 50
        { chain := Ledger.new, voters := [], candidates := [] } 5 "V1" "C001"
        { matched := false, confidence := 90 }).1 =
      { chain := Ledger.new, voters := [], candidates := [] } := by
  exact (rejection_before_mutation 50
    { chain := Ledger.new, voters := [], candidates := [] } 5 "V1" "C001"
    { matched := false, confidence := 90 } Rejection.identityNotVerified (by decide)).1

/-- A sample system state: fresh ledger, one registered voter who has not yet
voted, one active candidate in an election open over times 0 to 10. -/
def sampleState : SystemState :=
  { chain := Ledger.new,
    voters := [("V1", { has_voted := false, registered := true })],
    candidates := [("C001",
      { name := "Alice", election_id := "E1", is_active := true,
        start_time := 0, end_time := 10 })] }

/-- A sample identity proof: matched with confidence 90. -/
def sampleProof : IdentityProof := { matched := true, confidence := 90 }

/-- C7: `castVote` always returns exactly one of the typed outcomes and never
a fault (it is a total function into `VoteOutcome`); the rejection checks are
applied in order — identity proof, then unknown voter, then `has_voted`, then
candidate/election validity — and only when all four checks pass does it
append the `VoteRecord` and set `has_voted := true`. -/
theorem castVote_outcome_taxonomy (threshold : Nat) (st : SystemState) (now : Nat)
    (v c : String) (p : IdentityProof) :
    ((∃ bi bh, (VoteGate.castVote threshold st now v c p).2 =
        VoteOutcome.accepted bi bh) ∨
      (∃ r, (VoteGate.castVote threshold st now v c p).2 =
        VoteOutcome.rejected r)) ∧
    (identityVerified threshold p = false →
      VoteGate.castVote threshold st now v c p =
        (st, VoteOutcome.rejected Rejection.identityNotVerified)) ∧
    (identityVerified threshold p = true → st.voters.lookup v = none →
      VoteGate.castVote threshold st now v c p =
        (st, VoteOutcome.rejected Rejection.unknownVoter)) ∧
    (∀ vs, identityVerified threshold p = true → st.voters.lookup v = some vs →
      vs.has_voted = true →
      VoteGate.castVote threshold st now v c p =
        (st, VoteOutcome.rejected Rejection.alreadyVoted)) ∧
    (∀ vs, identityVerified threshold p = true → st.voters.lookup v = some vs →
      vs.has_voted = false → st.candidates.lookup c = none →
      VoteGate.castVote threshold st now v c p =
        (st, VoteOutcome.rejected Rejection.invalidOrClosedCandidate)) ∧
    (∀ vs cand, identityVerified threshold p = true →
      st.voters.lookup v = some vs → vs.has_voted = false →
      st.candidates.lookup c = some cand → candidateOpen cand now = false →
      VoteGate.castVote threshold st now v c p =
        (st, VoteOutcome.rejected Rejection.invalidOrClosedCandidate)) ∧
    (∀ vs cand, identityVerified threshold p = true →
      st.voters.lookup v = some vs → vs.has_voted = false →
      st.candidates.lookup c = some cand → candidateOpen cand now = true →
      VoteGate.castVote threshold st now v c p =
        ({ chain := st.chain ++
             [Ledger.newBlock st.chain now (Payload.voteRecord v c cand.name now)],
           voters := setVoted st.voters v, candidates := st.candidates },
         VoteOutcome.accepted
           (Ledger.newBlock st.chain now (Payload.voteRecord v c cand.name now)).index
           (Ledger.newBlock st.chain now (Payload.voteRecord v c cand.name now)).hash)) := by
  refine ⟨?_, ?_, ?_, ?_, ?_, ?_, ?_⟩
  · rcases hout : (VoteGate.castVote threshold st now v c p).2 with ⟨bi, bh⟩ | r
    · exact Or.inl ⟨bi, bh, rfl⟩
    · exact Or.inr ⟨r, rfl⟩
  · exact castVote_not_verified threshold st now v c p
  · exact castVote_unknown_voter threshold st now v c p
  · exact fun vs hv hl hvoted => castVote_already_voted threshold st now v c p vs hv hl hvoted
  · exact fun vs hv hl hvoted hc =>
      castVote_unknown_candidate threshold st now v c p vs hv hl hvoted hc
  · exact fun vs cand hv hl hvoted hc hopen =>
      castVote_closed_candidate threshold st now v c p vs cand hv hl hvoted hc hopen
  · exact fun vs cand hv hl hvoted hc hopen =>
      castVote_accepted threshold st now v c p vs cand hv hl hvoted hc hopen

/-- Witness for C7: on the sample state all four checks pass and the concrete
call appends the vote and reports acceptance. -/
theorem castVote_outcome_taxonomy_witness :
    VoteGate.castVote 50 sampleState 5 "V1" "C001" sampleProof =
      ({ chain := sampleState.chain ++
           [Ledger.newBlock sampleState.chain 5 (Payload.voteRecord "V1" "C001" "Alice" 5)],
         voters := setVoted sampleState.voters "V1",
         candidates := sampleState.candidates },
       VoteOutcome.accepted
         (Ledger.newBlock sampleState.chain 5 (Payload.voteRecord "V1" "C001" "Alice" 5)).index
         (Ledger.newBlock sampleState.chain 5 (Payload.voteRecord "V1" "C001" "Alice" 5)).hash) :=
  (castVote_outcome_taxonomy 50 sampleState 5 "V1" "C001" sampleProof).2.2.2.2.2.2
    { has_voted := false, registered := true }
    { name := "Alice", election_id := "E1", is_active := true,
      start_time := 0, end_time := 10 }
    (by decide) (by decide) rfl (by decide) (by decide)

/-! ## At-most-one-vote invariant -/

theorem countVotes_append (c₁ c₂ : List Block) (v : String) :
    countVotes (c₁ ++ c₂) v = countVotes c₁ v + countVotes c₂ v := by
  simp [countVotes, List.filter_append]

theorem countVotes_single_vote (idx ts t : Nat) (w cid nm : String) (ph : Hash)
    (v : String) :
    countVotes [mkBlock idx ts (Payload.voteRecord w cid nm t) ph] v =
      if w = v then 1 else 0 := by
  by_cases h : w = v <;> simp [countVotes, mkBlock, List.filter, h]

theorem countVotes_new (v : String) : countVotes Ledger.new v = 0 := rfl

theorem lookup_cons_self {β : Type} (k : String) (s : β) (m : List (String × β)) :
    ((k, s) :: m).lookup k = some s := by
  simp [List.lookup_cons]

theorem lookup_cons_ne {β : Type} (k v : String) (s : β) (m : List (String × β))
    (h : v ≠ k) : ((k, s) :: m).lookup v = m.lookup v := by
  have hb : (v == k) = false := beq_eq_false_iff_ne.mpr h
  simp [List.lookup_cons, hb]

theorem setVoted_cons (k : String) (s : VoterStatus) (m : List (String × VoterStatus))
    (w : String) :
    setVoted ((k, s) :: m) w =
      (if k = w then (k, { s with has_voted := true }) else (k, s)) :: setVoted m w := by
  by_cases h : k = w <;> simp [setVoted, h]

theorem lookup_setVoted (m : List (String × VoterStatus)) (w v : String) :
    (setVoted m w).lookup v =
      if v = w then (m.lookup v).map (fun vs => { vs with has_voted := true })
      else m.lookup v := by
  induction m with
  | nil => by_cases h : v = w <;> simp [setVoted, h]
  | cons kv m ih =>
    obtain ⟨k, s⟩ := kv
    rw [setVoted_cons]
    by_cases hvk : v = k
    · subst hvk
      by_cases hvw : v = w
      · subst hvw
        rw [if_pos rfl, lookup_cons_self, if_pos rfl, lookup_cons_self]
        rfl
      · rw [if_neg hvw, lookup_cons_self, if_neg hvw, lookup_cons_self]
    · have hhead : (if k = w then (k, { s with has_voted := true }) else (k, s)).1 = k := by
        by_cases h : k = w <;> simp [h]
      by_cases hkw : k = w
      · rw [if_pos hkw, lookup_cons_ne k v _ _ hvk, ih, lookup_cons_ne k v s m hvk]
      · rw [if_neg hkw, lookup_cons_ne k v s _ hvk, ih, lookup_cons_ne k v s m hvk]

/-- The duplicate-prevention invariant tying the chain to the voter store:
every voter has at most one `VoteRecord`, a registered voter with
`has_voted = false` has none, and an unknown voter has none. -/
def VoteInv (st : SystemState) : Prop :=
  ∀ v : String,
    countVotes st.chain v ≤ 1 ∧
    (∀ vs, st.voters.lookup v = some vs → vs.has_voted = false →
      countVotes st.chain v = 0) ∧
    (st.voters.lookup v = none → countVotes st.chain v = 0)

theorem voteInv_init (voters : List (String × VoterStatus))
    (candidates : List (String × Candidate)) :
    VoteInv { chain := Ledger.new, voters := voters, candidates := candidates } := by
  intro v
  refine ⟨?_, fun _ _ _ => countVotes_new v, fun _ => countVotes_new v⟩
  rw [show SystemState.chain ⟨Ledger.new, voters, candidates⟩ = Ledger.new from rfl,
    countVotes_new]
  omega

theorem castVote_preserves_voteInv (threshold : Nat) (st : SystemState) (now : Nat)
    (v c : String) (p : IdentityProof) (inv : VoteInv st) :
    VoteInv (VoteGate.castVote threshold st now v c p).1 := by
  rcases hv : identityVerified threshold p with _ | _
  · rw [castVote_not_verified threshold st now v c p hv]; exact inv
  · rcases hl : st.voters.lookup v with _ | vs
    · rw [castVote_unknown_voter threshold st now v c p hv hl]; exact inv
    · rcases hvoted : vs.has_voted with _ | _
      · rcases hc : st.candidates.lookup c with _ | cand
        · rw [castVote_unknown_candidate threshold st now v c p vs hv hl hvoted hc]
          exact inv
        · rcases hopen : candidateOpen cand now with _ | _
          · rw [castVote_closed_candidate threshold st now v c p vs cand hv hl hvoted hc hopen]
            exact inv
          · rw [castVote_accepted threshold st now v c p vs cand hv hl hvoted hc hopen]
            dsimp only
            intro w
            have hzero : countVotes st.chain v = 0 := (inv v).2.1 vs hl hvoted
            have hcount : countVotes (st.chain ++
                [Ledger.newBlock st.chain now (Payload.voteRecord v c cand.name now)]) w =
                countVotes st.chain w + if v = w then 1 else 0 := by
              rw [countVotes_append, Ledger.newBlock, countVotes_single_vote]
            by_cases hw : v = w
            · subst hw
              refine ⟨?_, ?_, ?_⟩
              · rw [hcount, hzero, if_pos rfl]
              · intro vs' hl' hf
                rw [lookup_setVoted, if_pos rfl, hl, Option.map_some',
                  Option.some_inj] at hl'
                rw [← hl'] at hf
                exact Bool.noConfusion hf
              · intro hl'
                rw [lookup_setVoted, if_pos rfl, hl] at hl'
                cases hl'
            · have hlw : (setVoted st.voters v).lookup w = st.voters.lookup w := by
                rw [lookup_setVoted, if_neg (fun h => hw h.symm)]
              refine ⟨?_, ?_, ?_⟩
              · rw [hcount, if_neg hw]
                have h1 := (inv w).1
                omega
              · intro vs' hl' hf
                rw [hlw] at hl'
                rw [hcount, if_neg hw, (inv w).2.1 vs' hl' hf]
              · intro hl'
                rw [hlw] at hl'
                rw [hcount, if_neg hw, (inv w).2.2 hl']
      · rw [castVote_already_voted threshold st now v c p vs hv hl hvoted]; exact inv

theorem reachable_voteInv {st : SystemState} (h : Reachable st) : VoteInv st := by
  induction h with
  | init voters candidates => exact voteInv_init voters candidates
  | vote st threshold now v c p _ ih =>
    exact castVote_preserves_voteInv threshold st now v c p ih

theorem castVotes_already_voted (threshold : Nat) (st : SystemState) (now : Nat)
    (v c : String) (p : IdentityProof) (vs : VoterStatus) (n : Nat)
    (hv : identityVerified threshold p = true)
    (hl : st.voters.lookup v = some vs) (hvoted : vs.has_voted = true) :
    VoteGate.castVotes threshold st now v c p n =
      (st, List.replicate n (VoteOutcome.rejected Rejection.alreadyVoted)) := by
  induction n with
  | zero => rfl
  | succ n ih =>
    rw [VoteGate.castVotes]
    rw [castVote_already_voted threshold st now v c p vs hv hl hvoted]
    dsimp only
    rw [ih, List.replicate_succ]

/-- C2: in every reachable system state each voter has at most one
`VoteRecord` on the chain; and when N ≥ 1 serialized `castVote` calls arrive
for the same registered, not-yet-voted voter with a valid identity proof and
an open candidate, exactly the first is accepted, the other N-1 are rejected
with `AlreadyVoted`, and the final chain carries exactly one `VoteRecord` for
that voter. -/
theorem at_most_one_vote :
    (∀ st, Reachable st → ∀ v, countVotes st.chain v ≤ 1) ∧
    (∀ (threshold : Nat) (st : SystemState) (now : Nat) (v c : String)
        (p : IdentityProof) (N : Nat) (vs : VoterStatus) (cand : Candidate),
      Reachable st → identityVerified threshold p = true →
      st.voters.lookup v = some vs → vs.has_voted = false →
      st.candidates.lookup c = some cand → candidateOpen cand now = true →
      1 ≤ N →
      (VoteGate.castVotes threshold st now v c p N).2 =
        VoteOutcome.accepted
            (Ledger.newBlock st.chain now (Payload.voteRecord v c cand.name now)).index
            (Ledger.newBlock st.chain now (Payload.voteRecord v c cand.name now)).hash
          :: List.replicate (N - 1) (VoteOutcome.rejected Rejection.alreadyVoted) ∧
      countVotes (VoteGate.castVotes threshold st now v c p N).1.chain v = 1) := by
  constructor
  · intro st hr v
    exact (reachable_voteInv hr v).1
  · intro threshold st now v c p N vs cand hr hv hl hvoted hc hopen hN
    obtain ⟨m, rfl⟩ : ∃ m, N = m + 1 := ⟨N - 1, by omega⟩
    have hzero : countVotes st.chain v = 0 :=
      (reachable_voteInv hr v).2.1 vs hl hvoted
    rw [VoteGate.castVotes]
    rw [castVote_accepted threshold st now v c p vs cand hv hl hvoted hc hopen]
    dsimp only
    have hl' : (setVoted st.voters v).lookup v =
        some { vs with has_voted := true } := by
      rw [lookup_setVoted, if_pos rfl, hl, Option.map_some']
    rw [castVotes_already_voted threshold _ now v c p { vs with has_voted := true }
      m hv hl' rfl]
    dsimp only
    refine ⟨by rw [Nat.add_sub_cancel], ?_⟩
    rw [countVotes_append, hzero, Ledger.newBlock, countVotes_single_vote,
      if_pos rfl]

/-- Witness for C2: three identical calls on the sample state — the first is
accepted, the next two rejected as `AlreadyVoted`, and the final chain has
exactly one `VoteRecord` for voter V1. -/
theorem at_most_one_vote_witness :
    (VoteGate.castVotes 50 sampleState 5 "V1" "C001" sampleProof 3).2 =
      VoteOutcome.accepted
          (Ledger.newBlock sampleState.chain 5
            (Payload.voteRecord "V1" "C001" "Alice" 5)).index
          (Ledger.newBlock sampleState.chain 5
            (Payload.voteRecord "V1" "C001" "Alice" 5)).hash
        :: List.replicate 2 (VoteOutcome.rejected Rejection.alreadyVoted) ∧
    countVotes (VoteGate.castVotes 50 sampleState 5 "V1" "C001" sampleProof 3).1.chain
      "V1" = 1 :=
  at_most_one_vote.2 50 sampleState 5 "V1" "C001" sampleProof 3
    { has_voted := false, registered := true }
    { name := "Alice", election_id := "E1", is_active := true,
      start_time := 0, end_time := 10 }
    (Reachable.init _ _) (by decide) (by decide) rfl (by decide) (by decide)
    (by decide)

/-! ## Append and genesis -/

/-- C5: `append` on a nonempty chain returns a block whose index is the last
block's index plus one, whose `previous_hash` is the last block's hash, whose
timestamp is `now`, whose payload is the given payload, and whose hash is the
digest of its own header fields; the new chain is the old chain with just that
block appended. `append` is total: it never fails for structurally valid
payloads. -/
theorem append_spec (chain : List Block) (now : Nat) (p : Payload)
    (h : chain ≠ []) :
    (Ledger.append chain now p).1 = chain ++ [(Ledger.append chain now p).2] ∧
    (Ledger.append chain now p).2.index = (chain.getLast h).index + 1 ∧
    (Ledger.append chain now p).2.timestamp = now ∧
    (Ledger.append chain now p).2.payload = p ∧
    (Ledger.append chain now p).2.previous_hash = (chain.getLast h).hash ∧
    (Ledger.append chain now p).2.hash = HashCodec.digest
      (Ledger.append chain now p).2.index
      (Ledger.append chain now p).2.timestamp
      (Ledger.append chain now p).2.payload
      (Ledger.append chain now p).2.previous_hash := by
  have hg : chain.getLastD genesisBlock = chain.getLast h := getLastD_of_ne_nil h _
  refine ⟨rfl, ?_, rfl, rfl, ?_, rfl⟩
  · show (chain.getLastD genesisBlock).index + 1 = (chain.getLast h).index + 1
    rw [hg]
  · show (chain.getLastD genesisBlock).hash = (chain.getLast h).hash
    rw [hg]

/-- Witness for C5 on the fresh ledger. -/
theorem append_spec_witness :
    (Ledger.append Ledger.new 7 (Payload.voteRecord "V2" "C002" "Bob" 7)).1 =
      Ledger.new ++
        [(Ledger.append Ledger.new 7 (Payload.voteRecord "V2" "C002" "Bob" 7)).2] ∧
    (Ledger.append Ledger.new 7 (Payload.voteRecord "V2" "C002" "Bob" 7)).2.index =
      (Ledger.new.getLast (by decide)).index + 1 :=
  ⟨(append_spec Ledger.new 7 (Payload.voteRecord "V2" "C002" "Bob" 7) (by decide)).1,
   (append_spec Ledger.new 7 (Payload.voteRecord "V2" "C002" "Bob" 7) (by decide)).2.1⟩

/-- C6: a fresh ledger is exactly the one-element chain holding the genesis
block — index 0, sentinel `previous_hash`, hash computed via HashCodec — so it
is never empty; its tally is the empty mapping and it validates as valid. -/
theorem new_ledger_spec :
    Ledger.new = [genesisBlock] ∧
    Ledger.new.length = 1 ∧
    Ledger.new ≠ [] ∧
    genesisBlock.index = 0 ∧
    genesisBlock.previous_hash = Hash.sentinel ∧
    genesisBlock.hash = HashCodec.digest genesisBlock.index genesisBlock.timestamp
      genesisBlock.payload genesisBlock.previous_hash ∧
    ChainInspector.tally Ledger.new = [] ∧
    ChainInspector.isValid Ledger.new = true :=
  ⟨rfl, rfl, by decide, rfl, rfl, rfl, rfl, by decide⟩

/-! ## Export surface and frontend -/

/-- C8 counterexample: the exported block record carries the payload under the
field name `data`, not `payload` — the admin viewers read `block.data`, so a
record keyed as the spec's §6 sentence claims would have no field for them to
read. -/
theorem export_fields_counterexample :
    "payload" ∉ (exportRecord genesisBlock).map Prod.fst ∧
    "data" ∈ (exportRecord genesisBlock).map Prod.fst ∧
    (exportRecord genesisBlock).map Prod.fst ≠ specClaimedFields := by
  decide

/-- C8 (amended): every block record delivered on the ledger export surface
carries exactly the fields `index, timestamp, data, previous_hash, hash` (the
payload travels under the key `data`), and the records form an ordered list in
chain order: the record at position `i` serializes the block at chain
position `i`. -/
theorem export_surface_fields (chain : List Block) (i : Nat)
    (h : i < chain.length) :
    (exportChain chain).length = chain.length ∧
    (exportChain chain).get ⟨i, by simpa [exportChain, Ledger.snapshot] using h⟩ =
      exportRecord (chain.get ⟨i, h⟩) ∧
    (exportRecord (chain.get ⟨i, h⟩)).map Prod.fst =
      ["index", "timestamp", "data", "previous_hash", "hash"] := by
  refine ⟨by simp [exportChain, Ledger.snapshot], ?_, rfl⟩
  exact List.get_map exportRecord

/-- Witness for C8's amended statement on the sample chain. -/
theorem export_surface_fields_witness :
    (exportChain sampleChain).length = sampleChain.length ∧
    (exportChain sampleChain).get ⟨0, by decide⟩ =
      exportRecord (sampleChain.get ⟨0, by decide⟩) ∧
    (exportRecord (sampleChain.get ⟨0, by decide⟩)).map Prod.fst =
      ["index", "timestamp", "data", "previous_hash", "hash"] :=
  export_surface_fields sampleChain 0 (by decide)

/-- C9: in every results view the displayed percentage is the vote share times
100 rounded to one decimal place when `total_votes > 0`, and 0 when
`total_votes = 0` — the division is guarded and never evaluated with a zero
denominator. -/
theorem percentage_division_guarded (votes total_votes : Nat) :
    (total_votes = 0 → displayedPercentage votes total_votes = 0) ∧
    (0 < total_votes → displayedPercentage votes total_votes =
      roundTo1 (((votes : ℚ) / (total_votes : ℚ)) * 100)) := by
  constructor
  · intro h; subst h; rfl
  · intro h; rw [displayedPercentage, if_pos h]

/-- Witness for C9 at concrete vote counts. -/
theorem percentage_division_guarded_witness :
    displayedPercentage 3 0 = 0 ∧
    displayedPercentage 1 2 =
      roundTo1 ((((1 : Nat) : ℚ) / ((2 : Nat) : ℚ)) * 100) :=
  ⟨(percentage_division_guarded 3 0).1 rfl,
   (percentage_division_guarded 1 2).2 (by decide)⟩

/-- C10: the admin blockchain view renders the fetched chain newest-first —
the display has the same length and its entry at position `j` is the chain
entry at position `length - 1 - j`, i.e. exactly the reversal of the exported
order. -/
theorem displayed_blocks_reversed (chain : List Block) (j : Nat)
    (h : j < chain.length) :
    (displayedBlocks chain).length = chain.length ∧
    (displayedBlocks chain).get ⟨j, by simpa [displayedBlocks] using h⟩ =
      chain.get ⟨chain.length - 1 - j, by omega⟩ := by
  refine ⟨by simp [displayedBlocks], ?_⟩
  simp only [displayedBlocks, List.get_eq_getElem]
  exact List.getElem_reverse _

/-- Witness for C10 on the sample two-block chain: display position 0 shows
chain position 1. -/
theorem displayed_blocks_reversed_witness :
    (displayedBlocks sampleChain).length = sampleChain.length ∧
    (displayedBlocks sampleChain).get ⟨0, by decide⟩ =
      sampleChain.get ⟨1, by decide⟩ :=
  displayed_blocks_reversed sampleChain 0 (by decide)
